import Mathlib

/-
Verification development for the k-means clustering notebook
(clustering of simulated height/weight data).

The notebook's clustering cell defines, in Python with numpy:

  def all_dist(observation, data):
      return numpy.sqrt((data[0, :] - observation[0])**2
                        + (data[1, :] - observation[1])**2)

  def cluster(data, k):
      centroids = numpy.array([data[:, numpy.random.randint(sample)] for _ in range(k)])
      done = False
      while not done:
          distances = numpy.empty((k,sample))
          for d in range(k):
              distances[d, :] = all_dist(centroids[d], data)
          winners = numpy.argmin(distances, axis = 0)
          clusters = [data[:, winners == i] for i in range(k)]
          prev_centroids = centroids
          centroids = numpy.array([numpy.average(cluster, axis = 1) for cluster in clusters])
          if numpy.sum(prev_centroids-centroids) == 0:
              done=True
      for cluster, color in zip(clusters, ['go', 'ro', 'bo']):
          plt.plot(cluster[0, :], cluster[1, :], color)
      plt.show()

with the module-level globals

  children, women, men = 20, 45, 35
  sample = children + women + men

Modelling choices, documented once here:
- Coordinates are rationals; the numpy float arithmetic is idealized as exact
  arithmetic.  The square root in all_dist is not representable in the
  rationals, so all_dist below returns the SQUARED distances; since the square
  root is strictly monotone on the nonnegatives, the argmin (including its
  first-occurrence tie-break) is unchanged; the assignment theorem states
  the minimality and tie-break properties in terms of the genuine
  square-root distances, discharging this modelling step.
- A dataset (the 2 x n numpy array data, points stored as columns) is a list
  of points; a point is a pair of rationals, matching the two rows data[0,:]
  and data[1,:] that the source reads.
- numpy.average over an empty cluster produces NaN (mean of an empty slice);
  every subsequent arithmetic or comparison involving it is poisoned, in
  particular the convergence test NaN == 0 is false forever.  This undefined
  propagation is modelled with Option: avgPoint of an empty list is none and
  none is absorbing through recompute, stepCentroids and clusterLoop.
- The ambient random draws numpy.random.randint(sample) are made explicit as
  a list of seed indices, and the unbounded while-loop is made explicit with
  a fuel parameter; clusterLoop returns none when the fuel is exhausted or
  when a recomputed centroid is undefined.
-/

namespace KMeansNotebook

/-- Demo global from the data cell: number of simulated children. -/
def children : ℕ := 20

/-- Demo global from the data cell: number of simulated women. -/
def women : ℕ := 45

/-- Demo global from the data cell: number of simulated men. -/
def men : ℕ := 35

/-- Module-level global sample = children + women + men (= 100); the
clustering cell reads this global, not the size of its data argument. -/
def sample : ℕ := children + women + men

/-- A data point: one column of the 2 x n array data. -/
abbrev Point := ℚ × ℚ

/-- Squared Euclidean distance over the two tracked coordinates, the quantity
under the numpy.sqrt in all_dist. -/
def sqDist (p q : Point) : ℚ := (p.1 - q.1) ^ 2 + (p.2 - q.2) ^ 2

/-- The function all_dist(observation, data): distances from one observation
to every column of data.  The source takes numpy.sqrt of exactly these
squared values; we keep the squares (see the header comment). -/
def all_dist (observation : Point) (data : List Point) : List ℚ :=
  data.map (fun p => sqDist p observation)

/-- First index of a minimal entry, the behaviour of numpy.argmin ("in case
of multiple occurrences of the minimum values, the indices corresponding to
the first occurrence are returned"). -/
def argminIdx : List ℚ → ℕ
  | [] => 0
  | [_] => 0
  | x :: y :: rest =>
    let r := argminIdx (y :: rest)
    if x ≤ (y :: rest).getD r 0 then 0 else r + 1

/-- The assignment step: distances is the k x sample matrix with row d equal
to all_dist(centroids[d], data), and winners = numpy.argmin(distances,
axis = 0) takes, for each column j, the least row index of a minimal entry. -/
def winnersOf (cents data : List Point) : List ℕ :=
  (List.range data.length).map (fun j =>
    argminIdx ((cents.map (fun c => all_dist c data)).map (fun row => row.getD j 0)))

/-- The cluster extraction clusters = [data[:, winners == i] for i in range(k)]:
for each cluster index i, the columns of data whose winner equals i, in data
order. -/
def clustersOf (w : List ℕ) (data : List Point) (k : ℕ) : List (List Point) :=
  (List.range k).map (fun i => ((data.zip w).filter (fun pw => pw.2 == i)).map Prod.fst)

/-- numpy.average(cluster, axis = 1) on a 2 x m block: the coordinate-wise
mean of the m member points; on an empty block the mean is undefined (numpy
emits NaN), modelled as none. -/
def avgPoint (ps : List Point) : Option Point :=
  match ps with
  | [] => none
  | _ =>
    some ((ps.map Prod.fst).sum / (ps.length : ℚ), (ps.map Prod.snd).sum / (ps.length : ℚ))

/-- The recompute step [numpy.average(cluster, axis = 1) for cluster in
clusters]: undefined (none) as soon as one cluster is empty. -/
def recompute : List (List Point) → Option (List Point)
  | [] => some []
  | c :: cs =>
    match avgPoint c, recompute cs with
    | some p, some ps => some (p :: ps)
    | _, _ => none

/-- The convergence quantity numpy.sum(prev_centroids - centroids): the sum
of ALL entry-wise differences of the two k x 2 arrays (not a norm). -/
def sumDiff (prev next : List Point) : ℚ :=
  ((prev.zip next).map (fun pc => (pc.1.1 - pc.2.1) + (pc.1.2 - pc.2.2))).sum

/-- One loop body of cluster as far as the centroid update: assignment from
the current centroids, cluster extraction, then the recomputed centroids. -/
def stepCentroids (data : List Point) (k : ℕ) (cents : List Point) : Option (List Point) :=
  recompute (clustersOf (winnersOf cents data) data k)

/-- The while-loop of cluster, with explicit fuel.  Returns the winners and
centroids in scope when done becomes True: winners computed from the
pre-update centroids, centroids the recomputed ones; none when the fuel runs
out or a recomputed centroid is undefined (NaN), in which case the Python
loop never terminates. -/
def clusterLoop (data : List Point) (k : ℕ) : ℕ → List Point → Option (List ℕ × List Point)
  | 0, _ => none
  | fuel + 1, cents =>
    match stepCentroids data k cents with
    | none => none
    | some newC =>
      if sumDiff cents newC = 0 then some (winnersOf cents data, newC)
      else clusterLoop data k fuel newC

/-- Centroid initialization [data[:, numpy.random.randint(sample)] for _ in
range(k)], with the k random draws passed explicitly; an out-of-range column
read (possible whenever the data has fewer than sample columns) is none. -/
def initCentroids (data : List Point) : List ℕ → Option (List Point)
  | [] => some []
  | s :: ss =>
    match data.get? s, initCentroids data ss with
    | some p, some ps => some (p :: ps)
    | _, _ => none

/-- The notebook function cluster(data, k).  The body runs the iteration and
then plots the clusters; there is no return statement, so the call evaluates
to Python's None whenever it finishes, modelled as none (none also covers the
runs on which the loop never finishes). -/
def cluster (data : List Point) (k : ℕ) (seeds : List ℕ) (fuel : ℕ) :
    Option (List ℕ × List Point) :=
  match initCentroids data seeds with
  | none => none
  | some c0 =>
    match clusterLoop data k fuel c0 with
    | none => none
    | some _ => none

/-- The distance-matrix fill loop with its buffer shape: distances =
numpy.empty((k, sample)) and distances[d, :] = all_dist(centroids[d], data).
Each row all_dist(centroids[d], data) has one entry per column of data, and
the write into a row of length sample is well-defined only when the two
lengths agree (otherwise numpy raises a broadcast error). -/
def fillDistances : List Point → List Point → Option (List (List ℚ))
  | [], _ => some []
  | c :: cs, data =>
    if (all_dist c data).length = sample then
      match fillDistances cs data with
      | some rows => some (all_dist c data :: rows)
      | none => none
    else none

/-- Generalization of all_dist to points with any number D of coordinates:
the source reads exactly rows 0 and 1 of the data array (data[0,:] and
data[1,:]), whatever D is. -/
def all_dist_rows (observation : List ℚ) (data : List (List ℚ)) : List ℚ :=
  data.map (fun p =>
    (p.getD 0 0 - observation.getD 0 0) ^ 2 + (p.getD 1 0 - observation.getD 1 0) ^ 2)

/-- Winners computed from all_dist_rows, the assignment the source produces
on a D-row data array. -/
def winnersRows (cents data : List (List ℚ)) : List ℕ :=
  (List.range data.length).map (fun j =>
    argminIdx ((cents.map (fun c => all_dist_rows c data)).map (fun row => row.getD j 0)))

/-- Modelled from the spec: squared Euclidean distance over ALL D coordinates
of two points, the distance the specification's assignment step refers to. -/
def specSqDistD (p q : List ℚ) : ℚ :=
  ((p.zip q).map (fun t => (t.1 - t.2) ^ 2)).sum

/-- Modelled from the spec: the total within-cluster squared distance (the
objective), the sum over all points of the squared distance to the centroid
they are assigned to. -/
def totalWithinSS (data cents : List Point) (w : List ℕ) : ℚ :=
  ((data.zip w).map (fun pw => sqDist pw.1 (cents.getD pw.2 (0, 0)))).sum

/-- Reading an entry of a mapped list within bounds, with arbitrary defaults
on both sides. -/
theorem getD_map_of_lt {α β : Type} (l : List α) (f : α → β) {j : ℕ}
    (h : j < l.length) (d : β) (d2 : α) : (l.map f).getD j d = f (l.getD j d2) := by
  rw [List.getD_eq_getElem _ _ (by simpa using h), List.getD_eq_getElem _ _ h]
  simp

/-- The argmin of a nonempty list is an index of the list. -/
theorem argminIdx_lt_length : ∀ (l : List ℚ), l ≠ [] → argminIdx l < l.length
  | [], h => absurd rfl h
  | [_], _ => by simp [argminIdx]
  | x :: y :: rest, _ => by
    simp only [argminIdx]
    split
    · simp
    · have ih := argminIdx_lt_length (y :: rest) (by simp)
      simpa [Nat.succ_lt_succ_iff] using ih

/-- The entry at the argmin is minimal. -/
theorem argminIdx_le : ∀ (l : List ℚ) (i : ℕ), i < l.length →
    l.getD (argminIdx l) 0 ≤ l.getD i 0
  | [], _, h => by simp at h
  | [_], i, h => by
    have hi : i = 0 := Nat.lt_one_iff.mp (by simpa using h)
    subst hi
    simp [argminIdx]
  | x :: y :: rest, i, h => by
    simp only [argminIdx]
    split
    · rename_i hle
      match i with
      | 0 => simp
      | j + 1 =>
        have ih := argminIdx_le (y :: rest) j (by simpa using h)
        calc (x :: y :: rest).getD 0 0 = x := rfl
          _ ≤ (y :: rest).getD (argminIdx (y :: rest)) 0 := hle
          _ ≤ (y :: rest).getD j 0 := ih
          _ = (x :: y :: rest).getD (j + 1) 0 := rfl
    · rename_i hgt
      match i with
      | 0 =>
        have hlt := lt_of_not_le hgt
        simpa using le_of_lt hlt
      | j + 1 =>
        have ih := argminIdx_le (y :: rest) j (by simpa using h)
        simpa using ih

/-- The argmin is the FIRST index attaining the minimum: any index whose
entry is at most the argmin entry lies at or after the argmin.  This is the
numpy.argmin tie-break. -/
theorem argminIdx_le_of_le : ∀ (l : List ℚ) (i : ℕ), i < l.length →
    l.getD i 0 ≤ l.getD (argminIdx l) 0 → argminIdx l ≤ i
  | [], _, h, _ => by simp at h
  | [_], i, _, _ => by simp [argminIdx]
  | x :: y :: rest, i, h, hle => by
    simp only [argminIdx] at hle ⊢
    by_cases hc : x ≤ (y :: rest).getD (argminIdx (y :: rest)) 0
    · rw [if_pos hc]
      exact Nat.zero_le i
    · rw [if_neg hc] at hle ⊢
      match i with
      | 0 =>
        exact absurd (by simpa using hle) hc
      | j + 1 =>
        have ih := argminIdx_le_of_le (y :: rest) j (by simpa using h) (by simpa using hle)
        simpa [Nat.succ_le_succ_iff] using ih

/-- Squared distances are nonnegative. -/
theorem sqDist_nonneg (p q : Point) : 0 ≤ sqDist p q := by
  unfold sqDist
  positivity

/-- A squared distance vanishes exactly on equal points. -/
theorem sqDist_eq_zero_iff (p q : Point) : sqDist p q = 0 ↔ p = q := by
  unfold sqDist
  constructor
  · intro h
    have h1 : p.1 - q.1 = 0 := by nlinarith [sq_nonneg (p.1 - q.1), sq_nonneg (p.2 - q.2)]
    have h2 : p.2 - q.2 = 0 := by nlinarith [sq_nonneg (p.1 - q.1), sq_nonneg (p.2 - q.2)]
    exact Prod.ext (by linarith) (by linarith)
  · intro h
    subst h
    ring

/-- If a list has a unique zero entry and all entries are nonnegative, the
argmin is that entry. -/
theorem argminIdx_eq_of_unique_zero (l : List ℚ) (i0 : ℕ) (hi0 : i0 < l.length)
    (hz : l.getD i0 0 = 0) (hpos : ∀ j, j < l.length → 0 ≤ l.getD j 0)
    (huniq : ∀ j, j < l.length → l.getD j 0 = 0 → j = i0) : argminIdx l = i0 := by
  have hne : l ≠ [] := by
    intro h
    subst h
    simp at hi0
  have h1 : argminIdx l < l.length := argminIdx_lt_length l hne
  have h2 : l.getD (argminIdx l) 0 ≤ l.getD i0 0 := argminIdx_le l i0 hi0
  have h3 : l.getD (argminIdx l) 0 = 0 := by
    rw [hz] at h2
    exact le_antisymm h2 (hpos _ h1)
  exact huniq _ h1 h3

/-- The assignment list has one entry per data column. -/
theorem winnersOf_length (cents data : List Point) :
    (winnersOf cents data).length = data.length := by
  simp [winnersOf]

/-- Column j of the distances matrix lists the distances from point j to each
centroid, so the per-column argmin depends only on the point value: winnersOf
is the map over data of the argmin over the centroid distances. -/
theorem winnersOf_eq_map (cents data : List Point) :
    winnersOf cents data =
      data.map (fun p => argminIdx (cents.map (fun c => sqDist p c))) := by
  apply List.ext_getElem (by simp [winnersOf])
  intro j h1 h2
  have hj : j < data.length := by simpa using h2
  have hfun : (fun c => (all_dist c data).getD j 0)
      = fun c => sqDist (data.getD j (0, 0)) c := by
    funext c
    unfold all_dist
    rw [getD_map_of_lt data _ hj 0 (0, 0)]
  simp only [winnersOf, List.getElem_map, List.getElem_range, List.map_map]
  rw [show ((fun row => row.getD j 0) ∘ fun c => all_dist c data)
      = fun c => (all_dist c data).getD j 0 from rfl, hfun]
  congr 1
  rw [List.getD_eq_getElem _ _ hj]

/-- There are exactly k extracted clusters. -/
theorem clustersOf_length (w : List ℕ) (data : List Point) (k : ℕ) :
    (clustersOf w data k).length = k := by
  simp [clustersOf]

/-- The i-th extracted cluster is the filter of the data/winner pairs. -/
theorem clustersOf_getD (w : List ℕ) (data : List Point) {i k : ℕ} (h : i < k) :
    (clustersOf w data k).getD i []
      = ((data.zip w).filter (fun pw => pw.2 == i)).map Prod.fst := by
  unfold clustersOf
  rw [getD_map_of_lt (List.range k) _ (by simpa using h) [] 0]
  rw [List.getD_eq_getElem _ _ (by simpa using h), List.getElem_range]

/-- Zipping a list with a map of itself pairs every element with its image. -/
theorem zip_map_self {α β : Type} (l : List α) (g : α → β) :
    l.zip (l.map g) = l.map (fun x => (x, g x)) := by
  induction l with
  | nil => rfl
  | cons x t ih => simp [ih]

/-- When the winners are a map over the data, the i-th cluster is the
sublist of data points whose winner is i. -/
theorem clustersOf_getD_eq_filter (data : List Point) (g : Point → ℕ) {i k : ℕ}
    (h : i < k) :
    (clustersOf (data.map g) data k).getD i [] = data.filter (fun p => g p == i) := by
  rw [clustersOf_getD _ _ h, zip_map_self, List.filter_map]
  rw [List.map_map]
  have : (Prod.fst ∘ fun x : Point => (x, g x)) = id := rfl
  rw [this, List.map_id]
  rfl

/-- Recompute preserves the number of centroids. -/
theorem recompute_length : ∀ (cls : List (List Point)) (cs : List Point),
    recompute cls = some cs → cs.length = cls.length
  | [], cs, h => by
    simp only [recompute] at h
    cases h
    rfl
  | c :: cls, cs, h => by
    simp only [recompute] at h
    cases ha : avgPoint c with
    | none => rw [ha] at h; exact absurd h (by simp)
    | some p =>
      cases hr : recompute cls with
      | none => rw [ha, hr] at h; exact absurd h (by simp)
      | some ps =>
        rw [ha, hr] at h
        cases h
        simpa using recompute_length cls ps hr

/-- When recompute succeeds, every new centroid is the average of its
cluster. -/
theorem recompute_getD : ∀ (cls : List (List Point)) (cs : List Point),
    recompute cls = some cs → ∀ i, i < cls.length →
      avgPoint (cls.getD i []) = some (cs.getD i (0, 0))
  | [], _, _, i, hi => by simp at hi
  | c :: cls, cs, h, i, hi => by
    simp only [recompute] at h
    cases ha : avgPoint c with
    | none => rw [ha] at h; exact absurd h (by simp)
    | some p =>
      cases hr : recompute cls with
      | none => rw [ha, hr] at h; exact absurd h (by simp)
      | some ps =>
        rw [ha, hr] at h
        cases h
        match i with
        | 0 => simpa using ha
        | j + 1 =>
          have := recompute_getD cls ps hr j (by simpa using hi)
          simpa using this

/-- Recompute succeeds and returns cs whenever every cluster averages to the
corresponding entry of cs. -/
theorem recompute_of_forall : ∀ (cls : List (List Point)) (cs : List Point),
    cls.length = cs.length →
    (∀ i, i < cls.length → avgPoint (cls.getD i []) = some (cs.getD i (0, 0))) →
    recompute cls = some cs
  | [], [], _, _ => rfl
  | [], _ :: _, h, _ => by simp at h
  | _ :: _, [], h, _ => by simp at h
  | c :: cls, p :: cs, h, hav => by
    have h0 : avgPoint c = some p := by simpa using hav 0 (by simp)
    have hrest : recompute cls = some cs := by
      refine recompute_of_forall cls cs (by simpa using h) ?_
      intro i hi
      simpa using hav (i + 1) (by simpa using hi)
    simp only [recompute, h0, hrest]

/-- The average of a one-point cluster is that point. -/
theorem avgPoint_singleton (p : Point) : avgPoint [p] = some p := by
  simp [avgPoint]

/-- The centroid sum check on identical centroid arrays is zero. -/
theorem sumDiff_self : ∀ (cs : List Point), sumDiff cs cs = 0
  | [] => rfl
  | c :: cs => by
    have ih := sumDiff_self cs
    simp only [sumDiff, List.zip_cons_cons, List.map_cons, List.sum_cons] at ih ⊢
    rw [ih]
    ring

/-- Sum of a pointwise sum of two maps splits. -/
theorem sum_map_add_split {α : Type} (l : List α) (f g : α → ℚ) :
    (l.map (fun x => f x + g x)).sum = (l.map f).sum + (l.map g).sum := by
  induction l with
  | nil => simp
  | cons x t ih =>
    simp only [List.map_cons, List.sum_cons, ih]
    ring

/-- Expansion of a sum of shifted squares. -/
theorem sum_map_sub_sq (xs : List ℚ) (c : ℚ) :
    (xs.map (fun x => (x - c) ^ 2)).sum
      = (xs.map (fun x => x ^ 2)).sum - 2 * c * xs.sum + (xs.length : ℚ) * c ^ 2 := by
  induction xs with
  | nil => simp
  | cons x t ih =>
    simp only [List.map_cons, List.sum_cons, List.length_cons, ih]
    push_cast
    ring

/-- The arithmetic mean minimizes the sum of squared deviations (scalar
version). -/
theorem mean_min_scalar (xs : List ℚ) (hne : xs ≠ []) (c : ℚ) :
    (xs.map (fun x => (x - xs.sum / (xs.length : ℚ)) ^ 2)).sum
      ≤ (xs.map (fun x => (x - c) ^ 2)).sum := by
  have hn : (0 : ℚ) < (xs.length : ℚ) := by
    have := List.length_pos.mpr hne
    exact_mod_cast this
  rw [sum_map_sub_sq, sum_map_sub_sq]
  set n : ℚ := (xs.length : ℚ) with hn_def
  set μ : ℚ := xs.sum / n with hμ_def
  have hS : n * μ = xs.sum := mul_div_cancel₀ _ hn.ne'
  rw [← hS]
  nlinarith [mul_nonneg hn.le (sq_nonneg (c - μ))]

/-- The coordinate-wise mean of a cluster minimizes the in-cluster sum of
squared distances. -/
theorem avg_min (ps : List Point) (μ : Point) (h : avgPoint ps = some μ) (c : Point) :
    (ps.map (fun p => sqDist p μ)).sum ≤ (ps.map (fun p => sqDist p c)).sum := by
  have hne : ps ≠ [] := by
    intro hcon
    subst hcon
    simp [avgPoint] at h
  have hμ : μ = ((ps.map Prod.fst).sum / (ps.length : ℚ),
      (ps.map Prod.snd).sum / (ps.length : ℚ)) := by
    cases ps with
    | nil => exact absurd rfl hne
    | cons q t =>
      simp only [avgPoint, Option.some_inj] at h
      exact h.symm
  subst hμ
  unfold sqDist
  rw [sum_map_add_split, sum_map_add_split]
  have hx : ∀ (a : ℚ), (ps.map (fun p : Point => (p.1 - a) ^ 2)).sum
      = ((ps.map Prod.fst).map (fun x => (x - a) ^ 2)).sum := by
    intro a
    rw [List.map_map]
    rfl
  have hy : ∀ (a : ℚ), (ps.map (fun p : Point => (p.2 - a) ^ 2)).sum
      = ((ps.map Prod.snd).map (fun x => (x - a) ^ 2)).sum := by
    intro a
    rw [List.map_map]
    rfl
  have hlen1 : ((ps.map Prod.fst).length : ℚ) = (ps.length : ℚ) := by simp
  have hlen2 : ((ps.map Prod.snd).length : ℚ) = (ps.length : ℚ) := by simp
  refine add_le_add ?_ ?_
  · rw [hx, hx]
    have := mean_min_scalar (ps.map Prod.fst) (by simpa using hne) c.1
    rw [hlen1] at this
    exact this
  · rw [hy, hy]
    have := mean_min_scalar (ps.map Prod.snd) (by simpa using hne) c.2
    rw [hlen2] at this
    exact this

/-- A sum over a list regrouped by the (bounded) value of a labelling
function: sum the clusters one label at a time. -/
theorem sum_map_groupBy {α : Type} (l : List α) (g : α → ℕ) (k : ℕ) (F : α → ℕ → ℚ)
    (hg : ∀ x ∈ l, g x < k) :
    (l.map (fun x => F x (g x))).sum
      = ∑ i in Finset.range k, ((l.filter (fun x => g x == i)).map (fun x => F x i)).sum := by
  induction l with
  | nil => simp
  | cons x t ih =>
    have hx : g x < k := hg x (by simp)
    have ht : ∀ y ∈ t, g y < k := fun y hy => hg y (by simp [hy])
    have hsplit : ∀ i ∈ Finset.range k,
        (((x :: t).filter (fun y => g y == i)).map (fun y => F y i)).sum
          = (if g x = i then F x i else 0)
            + ((t.filter (fun y => g y == i)).map (fun y => F y i)).sum := by
      intro i _
      rw [List.filter_cons]
      by_cases hgi : g x = i
      · rw [if_pos (by simpa using hgi), if_pos hgi]
        simp [hgi]
      · rw [if_neg (by simpa using hgi), if_neg hgi]
        ring
    rw [Finset.sum_congr rfl hsplit, Finset.sum_add_distrib]
    have hone : (∑ i in Finset.range k, if g x = i then F x i else 0) = F x (g x) := by
      rw [Finset.sum_ite_eq (Finset.range k) (g x) (fun i => F x i)]
      simp [hx]
    rw [hone]
    simp only [List.map_cons, List.sum_cons]
    rw [ih ht]

/-- The objective with a mapped winner list is a plain sum over the data. -/
theorem totalWithinSS_map (data cents : List Point) (g : Point → ℕ) :
    totalWithinSS data cents (data.map g)
      = (data.map (fun p => sqDist p (cents.getD (g p) (0, 0)))).sum := by
  unfold totalWithinSS
  rw [zip_map_self, List.map_map]
  rfl

/-- When every random draw is within bounds, initialization succeeds and
returns the drawn columns. -/
theorem initCentroids_eq_map (data : List Point) :
    ∀ (seeds : List ℕ), (∀ s ∈ seeds, s < data.length) →
      initCentroids data seeds = some (seeds.map (fun s => data.getD s (0, 0)))
  | [], _ => rfl
  | s :: ss, h => by
    have hs : s < data.length := h s (by simp)
    have hrest := initCentroids_eq_map data ss (fun t ht => h t (by simp [ht]))
    have hget : data.get? s = some (data.getD s (0, 0)) := by
      rw [List.get?_eq_get hs, List.getD_eq_getElem _ _ hs]
      rfl
    simp only [initCentroids, hget, hrest, List.map_cons]

/-- Filtering a duplicate-free list for one of its members yields exactly
that member. -/
theorem filter_eq_singleton_of_nodup :
    ∀ (l : List Point), l.Nodup → ∀ a ∈ l, l.filter (fun x => x == a) = [a]
  | [], _, a, ha => by simp at ha
  | x :: t, hnd, a, ha => by
    have hx : x ∉ t := (List.nodup_cons.mp hnd).1
    have ht : t.Nodup := (List.nodup_cons.mp hnd).2
    by_cases hxa : x = a
    · subst hxa
      have hnot : t.filter (fun y => y == x) = [] := by
        apply List.filter_eq_nil_iff.mpr
        intro b hb
        simp only [beq_iff_eq]
        intro hbx
        exact hx (hbx ▸ hb)
      rw [List.filter_cons, if_pos (by simp)]
      rw [hnot]
    · have hat : a ∈ t := by
        cases List.mem_cons.mp ha with
        | inl h => exact absurd h.symm hxa
        | inr h => exact h
      rw [List.filter_cons, if_neg (by simpa using hxa)]
      exact filter_eq_singleton_of_nodup t ht a hat

/-- When the data has exactly sample columns, every row write succeeds and
the distance matrix is the list of all_dist rows. -/
theorem fillDistances_some (data : List Point) (h : data.length = sample) :
    ∀ (cents : List Point),
      fillDistances cents data = some (cents.map (fun c => all_dist c data))
  | [] => rfl
  | c :: cs => by
    have hrow : (all_dist c data).length = sample := by simpa [all_dist] using h
    have hrest := fillDistances_some data h cs
    simp only [fillDistances, if_pos hrow, hrest, List.map_cons]

/-- When the data does not have exactly sample columns, the very first row
write fails. -/
theorem fillDistances_none (data : List Point) (h : data.length ≠ sample)
    (cents : List Point) (hc : cents ≠ []) : fillDistances cents data = none := by
  cases cents with
  | nil => exact absurd rfl hc
  | cons c cs =>
    have hrow : (all_dist c data).length ≠ sample := by simpa [all_dist] using h
    simp only [fillDistances, if_neg hrow]

/-- C1.  The convergence check of cluster is numpy.sum(prev_centroids -
centroids) == 0, a sum of signed differences, not an equality test.  On the
dataset [(0,4), (2,0), (4,2)] with k = 1 and initial centroid column 0, the
first recomputation moves the centroid from (0,4) to the mean (2,2); the
differences (0-2) and (4-2) cancel, the sum is 0, and the loop stops at this
very iteration even though the recomputed centroid differs from the previous
one in every coordinate — contradicting the documented stopping rule "once
the cluster centers do not change". -/
theorem cluster_stops_on_cancelling_sum :
    stepCentroids [(0, 4), (2, 0), (4, 2)] 1 [(0, 4)] = some [(2, 2)] ∧
    sumDiff [(0, 4)] [(2, 2)] = 0 ∧
    ([((0 : ℚ), (4 : ℚ))] : List Point) ≠ [(2, 2)] ∧
    clusterLoop [(0, 4), (2, 0), (4, 2)] 1 5 [(0, 4)] = some ([0, 0, 0], [(2, 2)]) := by
  refine ⟨by norm_num [cluster, clusterLoop, stepCentroids, winnersOf, clustersOf, recompute, avgPoint, all_dist, all_dist_rows, winnersRows, specSqDistD, sqDist, argminIdx, sumDiff, initCentroids, fillDistances, List.range_succ], by norm_num [cluster, clusterLoop, stepCentroids, winnersOf, clustersOf, recompute, avgPoint, all_dist, all_dist_rows, winnersRows, specSqDistD, sqDist, argminIdx, sumDiff, initCentroids, fillDistances, List.range_succ], by norm_num [cluster, clusterLoop, stepCentroids, winnersOf, clustersOf, recompute, avgPoint, all_dist, all_dist_rows, winnersRows, specSqDistD, sqDist, argminIdx, sumDiff, initCentroids, fillDistances, List.range_succ], by norm_num [cluster, clusterLoop, stepCentroids, winnersOf, clustersOf, recompute, avgPoint, all_dist, all_dist_rows, winnersRows, specSqDistD, sqDist, argminIdx, sumDiff, initCentroids, fillDistances, List.range_succ]⟩

/-- C2.  The Python function cluster has no return statement: it runs the
loop, plots the clusters, and evaluates to None.  On the one-point dataset
[(1,1)] with k = 1 and seed 0 the loop converges at once, yet the call yields
no (assignment, centroids) pair. -/
theorem cluster_returns_none_example :
    cluster [(1, 1)] 1 [0] 3 = none := by norm_num [cluster, clusterLoop, stepCentroids, winnersOf, clustersOf, recompute, avgPoint, all_dist, all_dist_rows, winnersRows, specSqDistD, sqDist, argminIdx, sumDiff, initCentroids, fillDistances, List.range_succ]

/-- C2 (amended).  For every dataset, k, sequence of random draws and fuel,
the value of cluster is none: the final winners and centroids are computed
internally (clusterLoop) but never returned. -/
theorem cluster_returns_none (data : List Point) (k : ℕ) (seeds : List ℕ) (fuel : ℕ) :
    cluster data k seeds fuel = none := by
  unfold cluster
  split
  · rfl
  · split
    · rfl
    · rfl

/-- C3.  The distance function all_dist reads only coordinates 0 and 1, so on
3-dimensional data the assignment is not by minimum Euclidean distance over
all D coordinates: the point (0,0,10) is assigned to centroid 0 = (0,0,0)
(two-coordinate distance 0) although centroid 1 = (3,0,10) is strictly closer
in the full three-coordinate Euclidean distance (9 < 100 for the squares). -/
theorem assignment_ignores_third_coordinate :
    winnersRows [[0, 0, 0], [3, 0, 10]] [[0, 0, 10]] = [0] ∧
    specSqDistD [0, 0, 10] [3, 0, 10] < specSqDistD [0, 0, 10] [0, 0, 0] := by
  refine ⟨by norm_num [cluster, clusterLoop, stepCentroids, winnersOf, clustersOf, recompute, avgPoint, all_dist, all_dist_rows, winnersRows, specSqDistD, sqDist, argminIdx, sumDiff, initCentroids, fillDistances, List.range_succ], by norm_num [cluster, clusterLoop, stepCentroids, winnersOf, clustersOf, recompute, avgPoint, all_dist, all_dist_rows, winnersRows, specSqDistD, sqDist, argminIdx, sumDiff, initCentroids, fillDistances, List.range_succ]⟩

/-- C4.  On the valid input [(0,0), (4,0)] with k = 2 (1 ≤ k ≤ N = 2) and the
legal random draw picking column 0 twice, both points win centroid 0, cluster
1 is empty, the recomputed centroids are undefined (numpy.average of an empty
slice is NaN), and the loop makes no further progress: no number of
iterations produces a result, contradicting termination on every finite
valid input. -/
theorem empty_cluster_loop_stuck :
    initCentroids [(0, 0), (4, 0)] [0, 0] = some [(0, 0), (0, 0)] ∧
    stepCentroids [(0, 0), (4, 0)] 2 [(0, 0), (0, 0)] = none ∧
    clusterLoop [(0, 0), (4, 0)] 2 100 [(0, 0), (0, 0)] = none := by
  refine ⟨by norm_num [cluster, clusterLoop, stepCentroids, winnersOf, clustersOf, recompute, avgPoint, all_dist, all_dist_rows, winnersRows, specSqDistD, sqDist, argminIdx, sumDiff, initCentroids, fillDistances, List.range_succ], by norm_num [cluster, clusterLoop, stepCentroids, winnersOf, clustersOf, recompute, avgPoint, all_dist, all_dist_rows, winnersRows, specSqDistD, sqDist, argminIdx, sumDiff, initCentroids, fillDistances, List.range_succ], by norm_num [cluster, clusterLoop, stepCentroids, winnersOf, clustersOf, recompute, avgPoint, all_dist, all_dist_rows, winnersRows, specSqDistD, sqDist, argminIdx, sumDiff, initCentroids, fillDistances, List.range_succ]⟩

/-- C7.  On the dataset [(0,0), (2,0), (4,0)] with k = 3 and all three random
draws picking column 0, every point is assigned to centroid 0 and clusters 1
and 2 have zero assigned points; the routine applies no resolution at all:
the recomputation numpy.average over the empty cluster is undefined (NaN in
the reference), so the recomputed centroids are undefined and the loop stops
making progress rather than resolving the degenerate cluster. -/
theorem empty_cluster_undefined_average :
    (clustersOf (winnersOf [(0, 0), (0, 0), (0, 0)] [(0, 0), (2, 0), (4, 0)])
        [(0, 0), (2, 0), (4, 0)] 3).getD 1 [] = [] ∧
    recompute (clustersOf (winnersOf [(0, 0), (0, 0), (0, 0)] [(0, 0), (2, 0), (4, 0)])
        [(0, 0), (2, 0), (4, 0)] 3) = none := by
  refine ⟨by norm_num [cluster, clusterLoop, stepCentroids, winnersOf, clustersOf, recompute, avgPoint, all_dist, all_dist_rows, winnersRows, specSqDistD, sqDist, argminIdx, sumDiff, initCentroids, fillDistances, List.range_succ], by norm_num [cluster, clusterLoop, stepCentroids, winnersOf, clustersOf, recompute, avgPoint, all_dist, all_dist_rows, winnersRows, specSqDistD, sqDist, argminIdx, sumDiff, initCentroids, fillDistances, List.range_succ]⟩

/-- C6.  The code validates nothing: on the dataset [(0,0), (2,0)] (N = 2)
with k = 3 — outside [1, N] — and legal draws 0, 1, 1, initialization and
the assignment step proceed and produce a full assignment; no InvalidArgument
condition is raised. -/
theorem no_validation_k_gt_n_example :
    initCentroids [(0, 0), (2, 0)] [0, 1, 1] = some [(0, 0), (2, 0), (2, 0)] ∧
    winnersOf [(0, 0), (2, 0), (2, 0)] [(0, 0), (2, 0)] = [0, 1] := by
  refine ⟨by norm_num [cluster, clusterLoop, stepCentroids, winnersOf, clustersOf, recompute, avgPoint, all_dist, all_dist_rows, winnersRows, specSqDistD, sqDist, argminIdx, sumDiff, initCentroids, fillDistances, List.range_succ], by norm_num [cluster, clusterLoop, stepCentroids, winnersOf, clustersOf, recompute, avgPoint, all_dist, all_dist_rows, winnersRows, specSqDistD, sqDist, argminIdx, sumDiff, initCentroids, fillDistances, List.range_succ]⟩

/-- C9.  With the two distinct points (0,0), (2,0) and k = N = 2, the legal
random draw picking column 0 twice (sampling is with replacement) leaves
cluster 1 empty after the first assignment: the recomputed centroids are
undefined and no converged result is reached at all, let alone within one
iteration. -/
theorem duplicate_seeds_no_convergence :
    initCentroids [(0, 0), (2, 0)] [0, 0] = some [(0, 0), (0, 0)] ∧
    stepCentroids [(0, 0), (2, 0)] 2 [(0, 0), (0, 0)] = none ∧
    clusterLoop [(0, 0), (2, 0)] 2 50 [(0, 0), (0, 0)] = none := by
  refine ⟨by norm_num [cluster, clusterLoop, stepCentroids, winnersOf, clustersOf, recompute, avgPoint, all_dist, all_dist_rows, winnersRows, specSqDistD, sqDist, argminIdx, sumDiff, initCentroids, fillDistances, List.range_succ], by norm_num [cluster, clusterLoop, stepCentroids, winnersOf, clustersOf, recompute, avgPoint, all_dist, all_dist_rows, winnersRows, specSqDistD, sqDist, argminIdx, sumDiff, initCentroids, fillDistances, List.range_succ], by norm_num [cluster, clusterLoop, stepCentroids, winnersOf, clustersOf, recompute, avgPoint, all_dist, all_dist_rows, winnersRows, specSqDistD, sqDist, argminIdx, sumDiff, initCentroids, fillDistances, List.range_succ]⟩

/-- C5.  Across consecutive executed iterations the objective does not
increase: if one loop body carries the centroids cents (with k = the number
of centroids, as in cluster) to a defined recomputation newC, then the total
within-cluster squared distance of the next iteration's snapshot (newC with
its assignment) is at most that of the current snapshot (cents with its
assignment).  The two halves are the standard alternating-minimization
facts: the argmin assignment minimizes each point's term, and the mean
minimizes each cluster's sum of squared deviations. -/
theorem objective_nonincreasing_step (data cents newC : List Point) (k : ℕ)
    (hk : 0 < cents.length) (hklen : cents.length = k)
    (hstep : stepCentroids data k cents = some newC) :
    totalWithinSS data newC (winnersOf newC data)
      ≤ totalWithinSS data cents (winnersOf cents data) := by
  have hcne : cents ≠ [] := List.ne_nil_of_length_pos hk
  have hlenC : newC.length = k := by
    have h1 := recompute_length _ _ hstep
    rw [clustersOf_length] at h1
    exact h1
  have hkpos : 0 < k := hklen ▸ hk
  have hnewne : newC ≠ [] := List.ne_nil_of_length_pos (hlenC ▸ hkpos)
  have hgb : ∀ p ∈ data, argminIdx (cents.map (fun c => sqDist p c)) < k := by
    intro p _
    have := argminIdx_lt_length (cents.map (fun c => sqDist p c)) (by simpa using hcne)
    simpa [hklen] using this
  rw [winnersOf_eq_map, winnersOf_eq_map, totalWithinSS_map, totalWithinSS_map]
  have stepA :
      (data.map (fun p =>
        sqDist p (newC.getD (argminIdx (newC.map (fun c => sqDist p c))) (0, 0)))).sum
      ≤ (data.map (fun p =>
        sqDist p (newC.getD (argminIdx (cents.map (fun c => sqDist p c))) (0, 0)))).sum := by
    apply List.sum_le_sum
    intro p hp
    have hgo : argminIdx (cents.map (fun c => sqDist p c)) < newC.length := by
      rw [hlenC]
      exact hgb p hp
    have hlist_ne : newC.map (fun c => sqDist p c) ≠ [] := by simpa using hnewne
    have harg : argminIdx (newC.map (fun c => sqDist p c)) < newC.length := by
      have := argminIdx_lt_length (newC.map (fun c => sqDist p c)) hlist_ne
      simpa using this
    have h1 := argminIdx_le (newC.map (fun c => sqDist p c)) (argminIdx (cents.map (fun c => sqDist p c))) (by simpa using hgo)
    rw [getD_map_of_lt newC _ harg 0 (0, 0), getD_map_of_lt newC _ hgo 0 (0, 0)] at h1
    exact h1
  have stepB :
      (data.map (fun p =>
        sqDist p (newC.getD (argminIdx (cents.map (fun c => sqDist p c))) (0, 0)))).sum
      ≤ (data.map (fun p =>
        sqDist p (cents.getD (argminIdx (cents.map (fun c => sqDist p c))) (0, 0)))).sum := by
    rw [sum_map_groupBy data (fun p => argminIdx (cents.map (fun c => sqDist p c))) k
        (fun p i => sqDist p (newC.getD i (0, 0))) hgb,
      sum_map_groupBy data (fun p => argminIdx (cents.map (fun c => sqDist p c))) k
        (fun p i => sqDist p (cents.getD i (0, 0))) hgb]
    apply Finset.sum_le_sum
    intro i hi
    have hik : i < k := Finset.mem_range.mp hi
    have hcl := recompute_getD _ _ hstep i (by rw [clustersOf_length]; exact hik)
    rw [winnersOf_eq_map, clustersOf_getD_eq_filter data _ hik] at hcl
    exact avg_min _ _ hcl (cents.getD i (0, 0))
  exact le_trans stepA stepB

/-- C3 (amended).  On the two coordinates the code actually reads, the
assignment is correct: for every point j and every centroid i, the winning
centroid index is in range, its Euclidean distance (the genuine square root
the source computes) to the point is minimal, and any centroid at least as
close has an index at or after the winner — the numpy.argmin lowest-index
tie-break. -/
theorem assignment_min_dist_two_coords (data cents : List Point) (j i : ℕ)
    (hk : 0 < cents.length) (hj : j < data.length) (hi : i < cents.length) :
    (winnersOf cents data).getD j 0 < cents.length ∧
    Real.sqrt ((sqDist (data.getD j (0, 0))
        (cents.getD ((winnersOf cents data).getD j 0) (0, 0)) : ℚ) : ℝ)
      ≤ Real.sqrt ((sqDist (data.getD j (0, 0)) (cents.getD i (0, 0)) : ℚ) : ℝ) ∧
    (Real.sqrt ((sqDist (data.getD j (0, 0)) (cents.getD i (0, 0)) : ℚ) : ℝ)
        ≤ Real.sqrt ((sqDist (data.getD j (0, 0))
          (cents.getD ((winnersOf cents data).getD j 0) (0, 0)) : ℚ) : ℝ)
      → (winnersOf cents data).getD j 0 ≤ i) := by
  have hcne : cents ≠ [] := List.ne_nil_of_length_pos hk
  have hwj : (winnersOf cents data).getD j 0
      = argminIdx (cents.map (fun c => sqDist (data.getD j (0, 0)) c)) := by
    rw [winnersOf_eq_map]
    rw [getD_map_of_lt data _ hj 0 (0, 0)]
  have hlne : cents.map (fun c => sqDist (data.getD j (0, 0)) c) ≠ [] := by
    simpa using hcne
  have harg : argminIdx (cents.map (fun c => sqDist (data.getD j (0, 0)) c))
      < cents.length := by
    have := argminIdx_lt_length _ hlne
    simpa using this
  have hval : ∀ m, m < cents.length →
      (cents.map (fun c => sqDist (data.getD j (0, 0)) c)).getD m 0
        = sqDist (data.getD j (0, 0)) (cents.getD m (0, 0)) := by
    intro m hm
    exact getD_map_of_lt cents _ hm 0 (0, 0)
  have hmin := argminIdx_le (cents.map (fun c => sqDist (data.getD j (0, 0)) c)) i
    (by simpa using hi)
  rw [hval _ harg, hval _ hi] at hmin
  refine ⟨hwj ▸ harg, ?_, ?_⟩
  · rw [hwj]
    exact Real.sqrt_le_sqrt (by exact_mod_cast hmin)
  · intro hsr
    rw [hwj] at hsr ⊢
    have h0w : (0 : ℝ) ≤ ((sqDist (data.getD j (0, 0)) (cents.getD (argminIdx (cents.map (fun c => sqDist (data.getD j (0, 0)) c))) (0, 0)) : ℚ) : ℝ) := by
      exact_mod_cast sqDist_nonneg _ _
    have h0i : (0 : ℝ) ≤ ((sqDist (data.getD j (0, 0)) (cents.getD i (0, 0)) : ℚ) : ℝ) := by
      exact_mod_cast sqDist_nonneg _ _
    have hsq : ((sqDist (data.getD j (0, 0)) (cents.getD i (0, 0)) : ℚ) : ℝ)
        ≤ ((sqDist (data.getD j (0, 0)) (cents.getD (argminIdx (cents.map (fun c => sqDist (data.getD j (0, 0)) c))) (0, 0)) : ℚ) : ℝ) := by
      calc ((sqDist (data.getD j (0, 0)) (cents.getD i (0, 0)) : ℚ) : ℝ)
          = Real.sqrt ((sqDist (data.getD j (0, 0)) (cents.getD i (0, 0)) : ℚ) : ℝ) ^ 2 :=
            (Real.sq_sqrt h0i).symm
        _ ≤ Real.sqrt ((sqDist (data.getD j (0, 0)) (cents.getD (argminIdx (cents.map (fun c => sqDist (data.getD j (0, 0)) c))) (0, 0)) : ℚ) : ℝ) ^ 2 :=
            pow_le_pow_left₀ (Real.sqrt_nonneg _) hsr 2
        _ = _ := Real.sq_sqrt h0w
    have hq : sqDist (data.getD j (0, 0)) (cents.getD i (0, 0))
        ≤ sqDist (data.getD j (0, 0)) (cents.getD (argminIdx (cents.map (fun c => sqDist (data.getD j (0, 0)) c))) (0, 0)) := by
      exact_mod_cast hsq
    apply argminIdx_le_of_le (cents.map (fun c => sqDist (data.getD j (0, 0)) c)) i
      (by simpa using hi)
    rw [hval _ harg, hval _ hi]
    exact hq

/-- Witness for C3 at a concrete input: one data point (0,0), centroids
(2,0) and (1,0); the winner is centroid 1, the nearer one. -/
theorem assignment_min_dist_two_coords_witness :
    (winnersOf [(2, 0), (1, 0)] [(0, 0)]).getD 0 0 < ([(2, 0), (1, 0)] : List Point).length ∧
    Real.sqrt ((sqDist (([(0, 0)] : List Point).getD 0 (0, 0))
        (([(2, 0), (1, 0)] : List Point).getD ((winnersOf [(2, 0), (1, 0)] [(0, 0)]).getD 0 0) (0, 0)) : ℚ) : ℝ)
      ≤ Real.sqrt ((sqDist (([(0, 0)] : List Point).getD 0 (0, 0))
        (([(2, 0), (1, 0)] : List Point).getD 1 (0, 0)) : ℚ) : ℝ) ∧
    (Real.sqrt ((sqDist (([(0, 0)] : List Point).getD 0 (0, 0))
        (([(2, 0), (1, 0)] : List Point).getD 1 (0, 0)) : ℚ) : ℝ)
        ≤ Real.sqrt ((sqDist (([(0, 0)] : List Point).getD 0 (0, 0))
          (([(2, 0), (1, 0)] : List Point).getD ((winnersOf [(2, 0), (1, 0)] [(0, 0)]).getD 0 0) (0, 0)) : ℚ) : ℝ)
      → (winnersOf [(2, 0), (1, 0)] [(0, 0)]).getD 0 0 ≤ 1) :=
  assignment_min_dist_two_coords [(0, 0)] [(2, 0), (1, 0)] 0 1
    (by norm_num) (by norm_num) (by norm_num)

/-- C8.  The assignment is total and exclusive: winners has exactly one
entry per point (each point mapped to exactly one cluster index), and the
entry at every point index j is a cluster index below k; this holds for
every assignment step, in particular the final one. -/
theorem winners_total_exclusive (data cents : List Point) (j : ℕ)
    (hk : 0 < cents.length) (hj : j < data.length) :
    (winnersOf cents data).length = data.length ∧
    (winnersOf cents data).getD j 0 < cents.length := by
  refine ⟨winnersOf_length cents data, ?_⟩
  rw [winnersOf_eq_map, getD_map_of_lt data _ hj 0 (0, 0)]
  have hcne : cents ≠ [] := List.ne_nil_of_length_pos hk
  have := argminIdx_lt_length
    (cents.map (fun c => sqDist (data.getD j (0, 0)) c)) (by simpa using hcne)
  simpa using this

/-- Witness for C8 at a concrete input: two points, one centroid. -/
theorem winners_total_exclusive_witness :
    (winnersOf [(1, 1)] [(0, 0), (3, 1)]).length = ([(0, 0), (3, 1)] : List Point).length ∧
    (winnersOf [(1, 1)] [(0, 0), (3, 1)]).getD 1 0 < ([(1, 1)] : List Point).length :=
  winners_total_exclusive [(0, 0), (3, 1)] [(1, 1)] 1 (by norm_num) (by norm_num)

/-- C6 (amended).  The code performs no validation of k or of the dataset:
for every nonempty list of in-range random draws — of any length k, also
k > N — initialization succeeds with the drawn columns and the assignment
step produces a full assignment; no InvalidArgument condition exists in the
code. -/
theorem no_validation_proceeds (data : List Point) (seeds : List ℕ)
    (hne : seeds ≠ []) (hs : ∀ s ∈ seeds, s < data.length) :
    initCentroids data seeds = some (seeds.map (fun s => data.getD s (0, 0))) ∧
    seeds.map (fun s => data.getD s (0, 0)) ≠ [] ∧
    (winnersOf (seeds.map (fun s => data.getD s (0, 0))) data).length = data.length := by
  refine ⟨initCentroids_eq_map data seeds hs, by simpa using hne, winnersOf_length _ _⟩

/-- Witness for C6 at the concrete input of the counterexample: N = 2,
k = 3 draws. -/
theorem no_validation_proceeds_witness :
    initCentroids [(0, 0), (2, 0)] [0, 1, 1]
      = some ([0, 1, 1].map (fun s => ([(0, 0), (2, 0)] : List Point).getD s (0, 0))) ∧
    [0, 1, 1].map (fun s => ([(0, 0), (2, 0)] : List Point).getD s (0, 0)) ≠ [] ∧
    (winnersOf ([0, 1, 1].map (fun s => ([(0, 0), (2, 0)] : List Point).getD s (0, 0)))
      [(0, 0), (2, 0)]).length = ([(0, 0), (2, 0)] : List Point).length :=
  no_validation_proceeds [(0, 0), (2, 0)] [0, 1, 1] (by simp) (by decide)

/-- Witness for C5 at a concrete input: the k = 1 step from centroid (0,4)
to the dataset mean (2,2) does not increase the objective. -/
theorem objective_nonincreasing_step_witness :
    totalWithinSS [(0, 4), (2, 0), (4, 2)] [(2, 2)]
        (winnersOf [(2, 2)] [(0, 4), (2, 0), (4, 2)])
      ≤ totalWithinSS [(0, 4), (2, 0), (4, 2)] [(0, 4)]
        (winnersOf [(0, 4)] [(0, 4), (2, 0), (4, 2)]) :=
  objective_nonincreasing_step [(0, 4), (2, 0), (4, 2)] [(0, 4)] [(2, 2)] 1
    (by norm_num) (by norm_num)
    (by norm_num [stepCentroids, winnersOf, clustersOf, recompute, avgPoint, all_dist,
      sqDist, argminIdx, List.range_succ])

/-- C10.  The routine depends on the module-level global sample, not on the
size of its data argument: with at least one centroid, writing the distance
rows into the (k, sample) buffer is possible exactly when the dataset has
sample columns, and when the dataset has fewer than sample columns the
random draw data.length (a legal outcome of randint(sample)) makes the
initialization read out of bounds.  The routine is well-defined only when
N equals sample. -/
theorem sample_global_shape_constraint (data cents : List Point) (hc : cents ≠ []) :
    (fillDistances cents data = none ↔ data.length ≠ sample) ∧
    (data.length < sample → initCentroids data [data.length] = none) := by
  constructor
  · constructor
    · intro hnone hlen
      rw [fillDistances_some data hlen cents] at hnone
      exact absurd hnone (by simp)
    · intro hlen
      exact fillDistances_none data hlen cents hc
  · intro _
    have hget : data.get? data.length = none := List.get?_eq_none.mpr le_rfl
    simp only [initCentroids, hget]

/-- Witness for C10 at a concrete input: a 2-column dataset (2 is both
different from and below sample = 100). -/
theorem sample_global_shape_constraint_witness :
    (fillDistances [(0, 0)] [(0, 0), (2, 0)] = none
        ↔ ([(0, 0), (2, 0)] : List Point).length ≠ sample) ∧
    (([(0, 0), (2, 0)] : List Point).length < sample
        → initCentroids [(0, 0), (2, 0)] [([(0, 0), (2, 0)] : List Point).length] = none) :=
  sample_global_shape_constraint [(0, 0), (2, 0)] [(0, 0)] (by simp)

/-- C9 (amended).  With k = N and DISTINCT initial centroids — the random
draw happens to pick a permutation of the N distinct data points — the claim
holds: the loop stops in the first iteration with the centroids unchanged,
the winning centroid of every point is the point itself, and every cluster
is the singleton of its centroid.  (With replacement the draw may repeat a
column, and then no converged result is reached at all; see the
counterexample.) -/
theorem distinct_points_k_eq_n_converges (data cents : List Point) (j i : ℕ)
    (hnd : data.Nodup) (hperm : cents.Perm data) (hj : j < data.length)
    (hi : i < data.length) :
    clusterLoop data data.length 1 cents = some (winnersOf cents data, cents) ∧
    cents.getD ((winnersOf cents data).getD j 0) (0, 0) = data.getD j (0, 0) ∧
    (clustersOf (winnersOf cents data) data data.length).getD i []
      = [cents.getD i (0, 0)] := by
  have hlen : cents.length = data.length := hperm.length_eq
  have hcnd : cents.Nodup := hperm.nodup_iff.mpr hnd
  have hkey : ∀ p ∈ data,
      argminIdx (cents.map (fun c => sqDist p c)) < cents.length ∧
      cents.getD (argminIdx (cents.map (fun c => sqDist p c))) (0, 0) = p := by
    intro p hp
    have hpc : p ∈ cents := hperm.mem_iff.mpr hp
    obtain ⟨i0, hi0len, hi0val⟩ := List.getElem_of_mem hpc
    have hmain : argminIdx (cents.map (fun c => sqDist p c)) = i0 := by
      apply argminIdx_eq_of_unique_zero
      · simpa using hi0len
      · rw [getD_map_of_lt cents _ hi0len 0 (0, 0)]
        rw [List.getD_eq_getElem _ _ hi0len, hi0val]
        exact (sqDist_eq_zero_iff p p).mpr rfl
      · intro m hm
        have hm2 : m < cents.length := by simpa using hm
        rw [getD_map_of_lt cents _ hm2 0 (0, 0)]
        exact sqDist_nonneg _ _
      · intro m hm hz
        have hm2 : m < cents.length := by simpa using hm
        rw [getD_map_of_lt cents _ hm2 0 (0, 0)] at hz
        have hpm : p = cents.getD m (0, 0) := (sqDist_eq_zero_iff _ _).mp hz
        rw [List.getD_eq_getElem _ _ hm2] at hpm
        have e1 : cents[m] = cents[i0] := by rw [← hpm, hi0val]
        exact hcnd.getElem_inj_iff.mp e1
    rw [hmain]
    refine ⟨hi0len, ?_⟩
    rw [List.getD_eq_getElem _ _ hi0len]
    exact hi0val
  have hsing : ∀ m, m < data.length →
      (clustersOf (winnersOf cents data) data data.length).getD m []
        = [cents.getD m (0, 0)] := by
    intro m hm
    rw [winnersOf_eq_map, clustersOf_getD_eq_filter data _ hm]
    have hmc : m < cents.length := hlen ▸ hm
    have hcm_mem_c : cents.getD m (0, 0) ∈ cents := by
      rw [List.getD_eq_getElem _ _ hmc]
      exact List.getElem_mem hmc
    have hcm_mem : cents.getD m (0, 0) ∈ data := hperm.mem_iff.mp hcm_mem_c
    have hcongr : ∀ p ∈ data,
        (argminIdx (cents.map (fun c => sqDist p c)) == m)
          = (p == cents.getD m (0, 0)) := by
      intro p hp
      apply Bool.eq_iff_iff.mpr
      simp only [beq_iff_eq]
      obtain ⟨harglt, hargval⟩ := hkey p hp
      constructor
      · intro him
        rw [← him, hargval]
      · intro hpm
        have e1 : cents[argminIdx (cents.map (fun c => sqDist p c))] = cents[m] := by
          rw [← List.getD_eq_getElem _ (0, 0) harglt, hargval, hpm,
            List.getD_eq_getElem _ _ hmc]
        exact hcnd.getElem_inj_iff.mp e1
    rw [List.filter_congr hcongr]
    exact filter_eq_singleton_of_nodup data hnd _ hcm_mem
  have hrec : recompute (clustersOf (winnersOf cents data) data data.length)
      = some cents := by
    apply recompute_of_forall
    · rw [clustersOf_length, hlen]
    · intro m hm
      have hm2 : m < data.length := by rwa [clustersOf_length] at hm
      rw [hsing m hm2]
      have hmc : m < cents.length := hlen ▸ hm2
      exact avgPoint_singleton _
  have hstep : stepCentroids data data.length cents = some cents := hrec
  have hloop : clusterLoop data data.length 1 cents
      = some (winnersOf cents data, cents) := by
    simp only [clusterLoop, hstep, sumDiff_self, if_pos]
  have hw : cents.getD ((winnersOf cents data).getD j 0) (0, 0)
      = data.getD j (0, 0) := by
    have hpj : data.getD j (0, 0) ∈ data := by
      rw [List.getD_eq_getElem _ _ hj]
      exact List.getElem_mem hj
    rw [winnersOf_eq_map, getD_map_of_lt data _ hj 0 (0, 0)]
    exact (hkey _ hpj).2
  exact ⟨hloop, hw, hsing i hi⟩

/-- Witness for C9 at a concrete input: two distinct points, the initial
centroids their swap. -/
theorem distinct_points_k_eq_n_converges_witness :
    clusterLoop [(0, 0), (1, 0)] ([(0, 0), (1, 0)] : List Point).length 1 [(1, 0), (0, 0)]
      = some (winnersOf [(1, 0), (0, 0)] [(0, 0), (1, 0)], [(1, 0), (0, 0)]) ∧
    ([(1, 0), (0, 0)] : List Point).getD
        ((winnersOf [(1, 0), (0, 0)] [(0, 0), (1, 0)]).getD 0 0) (0, 0)
      = ([(0, 0), (1, 0)] : List Point).getD 0 (0, 0) ∧
    (clustersOf (winnersOf [(1, 0), (0, 0)] [(0, 0), (1, 0)]) [(0, 0), (1, 0)]
        ([(0, 0), (1, 0)] : List Point).length).getD 0 []
      = [([(1, 0), (0, 0)] : List Point).getD 0 (0, 0)] :=
  distinct_points_k_eq_n_converges [(0, 0), (1, 0)] [(1, 0), (0, 0)] 0 0
    (by norm_num [Prod.ext_iff]) (List.Perm.swap (0, 0) (1, 0) []) (by norm_num)
    (by norm_num)

end KMeansNotebook
